import Mathlib

/-!
Verification of the PicoRV32 CLI testbench (`testbench_cli.cc`).

The development shallowly embeds the two cores of the program:
* `ElfLoader.load` — ELF32 header validation, whole-buffer zeroing, and
  per-segment copy/BSS-zero with the source's uint32 bounds check;
* the simulation driver loop of `main` — clock toggling, reset release at
  `t > 200`, cycle counting on active edges, trace-record capture, and the
  timeout/finish exit taxonomy;
* the command-line argument loop of `main`, including its `atoi`-based
  `--timeout=N` parsing.

Machine integers are embedded as `Nat` with explicit `% 2 ^ 32` exactly where
the C code performs wrapping 32-bit arithmetic.  Memory is a byte function
`Nat → Nat`; file contents are a byte function as well.
-/

/-! ## ELF loader (`ElfLoader::load`, testbench_cli.cc lines 46-132) -/

/-- `#define MEM_SIZE (128 * 1024)` — capacity of the target memory buffer. -/
def MEM_SIZE : Nat := 128 * 1024

/-- ELF program-header type `PT_LOAD`. -/
def PT_LOAD : Nat := 1

/-- ELF identification class for 32-bit objects (`ELFCLASS32`). -/
def ELFCLASS32 : Nat := 1

/-- ELF machine number for RISC-V (`EM_RISCV`). -/
def EM_RISCV : Nat := 243

/-- One ELF32 program header, with the fields the loader reads.
All fields are `uint32_t` in the source; they are embedded as `Nat`. -/
structure Phdr where
  p_type : Nat
  p_offset : Nat
  p_vaddr : Nat
  p_filesz : Nat
  p_memsz : Nat
  p_paddr : Nat
deriving DecidableEq

/-- `uint32_t load_addr = (paddr != 0) ? paddr : vaddr;` -/
def Phdr.loadAddr (p : Phdr) : Nat :=
  if p.p_paddr ≠ 0 then p.p_paddr else p.p_vaddr

/-- Write `n` bytes taken from `src` (indexed from 0) at addresses
`[dst, dst + n)` of `mem`; models both `memcpy` into the buffer and
`memset` (with a constant source). -/
def writeRange (src : Nat → Nat) (dst n : Nat) (mem : Nat → Nat) : Nat → Nat :=
  fun a => if dst ≤ a ∧ a < dst + n then src (a - dst) else mem a

/-- `if (filesz > 0) { memcpy(memory + load_addr, file + offset, filesz); }` -/
def copyMem (file : Nat → Nat) (p : Phdr) (mem : Nat → Nat) : Nat → Nat :=
  if 0 < p.p_filesz then
    writeRange (fun k => file (p.p_offset + k)) p.loadAddr p.p_filesz mem
  else mem

/-- The memory after one `PT_LOAD` segment is processed: the file copy
followed by `if (memsz > filesz) memset(memory + load_addr + filesz, 0,
memsz - filesz);`. -/
def segMem (file : Nat → Nat) (p : Phdr) (mem : Nat → Nat) : Nat → Nat :=
  if p.p_filesz < p.p_memsz then
    writeRange (fun _ => 0) (p.loadAddr + p.p_filesz) (p.p_memsz - p.p_filesz)
      (copyMem file p mem)
  else copyMem file p mem

/-- One iteration of the program-header loop.  The bounds check
`load_addr >= MEM_SIZE || load_addr + memsz > MEM_SIZE` is evaluated by the C
code in wrapping 32-bit arithmetic, hence the `% 2 ^ 32` on the sum.
`none` models the `return false` path (segment out of bounds). -/
def loadSegment (file : Nat → Nat) (mem : Nat → Nat) (p : Phdr) :
    Option (Nat → Nat) :=
  if p.p_type = PT_LOAD then
    if MEM_SIZE ≤ p.loadAddr ∨ MEM_SIZE < (p.loadAddr + p.p_memsz) % 2 ^ 32 then
      none
    else
      some (segMem file p mem)
  else some mem

/-- The `for (i = 0; i < e_phnum; i++)` loop over the program headers. -/
def loadSegs (file : Nat → Nat) : List Phdr → (Nat → Nat) → Option (Nat → Nat)
  | [], mem => some mem
  | p :: ps, mem =>
    match loadSegment file mem p with
    | none => none
    | some mem1 => loadSegs file ps mem1

/-- The parsed view of the mapped ELF file, as far as `load` inspects it:
whether the 4-byte magic matched, `e_ident[EI_CLASS]`, `e_machine`,
`e_entry`, the program-header table, and the raw file bytes. -/
structure ElfImage where
  magicOk : Bool
  eiClass : Nat
  e_machine : Nat
  e_entry : Nat
  phdrs : List Phdr
  fileByte : Nat → Nat

/-- The fatal outcomes of `load` after the file has been mapped. -/
inductive LoadError where
  | notAnImage
  | unsupportedClass
  | segmentOutOfBounds
deriving DecidableEq

/-- `ElfLoader::load` from the point where the file is mapped: magic check,
32-bit class check, `memset(memory, 0, MEM_SIZE)`, then the segment loop.
The `e_machine` comparison only prints a warning and is modelled by
`loadWarnsMachine` below. -/
def ElfLoader.load (img : ElfImage) (mem0 : Nat → Nat) :
    Except LoadError (Nat → Nat) :=
  if img.magicOk then
    if img.eiClass ≠ ELFCLASS32 then Except.error LoadError.unsupportedClass
    else
      match loadSegs img.fileByte img.phdrs (writeRange (fun _ => 0) 0 MEM_SIZE mem0) with
      | some m => Except.ok m
      | none => Except.error LoadError.segmentOutOfBounds
  else Except.error LoadError.notAnImage

/-- `if (ehdr->e_machine != EM_RISCV) fprintf(stderr, "Warning: ...")` —
true iff the run reaches that check and prints the non-fatal warning. -/
def loadWarnsMachine (img : ElfImage) : Bool :=
  img.magicOk && decide (img.eiClass = ELFCLASS32) && decide (img.e_machine ≠ EM_RISCV)

/-- Address `a` lies in the destination range `[load_addr, load_addr + memsz)`
of segment `p`. -/
def inSeg (p : Phdr) (a : Nat) : Prop :=
  p.loadAddr ≤ a ∧ a < p.loadAddr + p.p_memsz

/-- Destination ranges of `p` and `q` do not overlap (when both loadable). -/
def segDisjoint (p q : Phdr) : Prop :=
  p.p_type = PT_LOAD → q.p_type = PT_LOAD → ∀ a, inSeg p a → ¬ inSeg q a

/-! ## Simulation driver (`main`, testbench_cli.cc lines 232-292) -/

/-- The outputs the driver reads back from the device-under-test after one
`top->eval()`: whether `$finish` was raised (`Verilated::gotFinish()`),
`top->trace_valid`, and `top->trace_data`. -/
structure DutOutputs where
  finish : Bool
  trace_valid : Bool
  trace_data : Nat

/-- The driver's mutable state: `top->clk`, `top->resetn`, `int t`,
`int cycle`, the sticky `gotFinish` flag, and the sequence of trace records
written so far (each tagged with the value of `cycle` at the moment of the
`fprintf`). -/
structure SimState where
  clk : Bool
  resetn : Bool
  t : Nat
  cycle : Nat
  finished : Bool
  traceRecs : List (Nat × Nat)
deriving DecidableEq

/-- `top->clk = 0; top->resetn = 0; int t = 0; int cycle = 0;` with no finish
seen and an empty trace file. -/
def initState : SimState :=
  { clk := false, resetn := false, t := 0, cycle := 0, finished := false,
    traceRecs := [] }

/-- One iteration of the simulation `while` loop body, in source order:
release reset when `t > 200`, toggle the clock, `eval()` (whose observable
outputs are `d`), write a trace record when
`trace_fd && top->clk && top->resetn && top->trace_valid`, count a cycle when
`top->clk && top->resetn`, and advance `t += 5`.  `tE` is whether the
instruction-trace sink (`trace_fd`) is open. -/
def stepSim (tE : Bool) (d : DutOutputs) (s : SimState) : SimState :=
  let resetn := if 200 < s.t then true else s.resetn
  let clk := !s.clk
  { clk := clk
    resetn := resetn
    t := s.t + 5
    cycle := if clk && resetn then s.cycle + 1 else s.cycle
    finished := s.finished || d.finish
    traceRecs :=
      if tE && clk && resetn && d.trace_valid then
        s.traceRecs ++ [(s.cycle, d.trace_data)]
      else s.traceRecs }

/-- The state after `n` executed loop iterations, with the device-under-test
modelled as an oracle `dut` giving the post-`eval()` outputs of iteration
`n` (the driver's inputs to the model are a deterministic function of the
iteration index, so an index-based oracle loses no generality). -/
def iterState (tE : Bool) (dut : Nat → DutOutputs) : Nat → SimState
  | 0 => initState
  | n + 1 => stepSim tE (dut n) (iterState tE dut n)

/-- `while (!Verilated::gotFinish() && cycle < timeout_cycles) { ... }`,
fuelled: `i` is the index of the next iteration, and the loop body is
executed only while the guard holds.  Any fuel at least as large as the
number of iterations the C loop performs yields the C loop's exit state. -/
def simLoop (tE : Bool) (dut : Nat → DutOutputs) (tmo : Nat) :
    Nat → Nat → SimState → SimState
  | 0, _, s => s
  | fuel + 1, i, s =>
    if s.finished = false ∧ s.cycle < tmo then
      simLoop tE dut tmo fuel (i + 1) (stepSim tE (dut i) s)
    else s

/-- A whole simulation run from the initial state. -/
def runSim (tE : Bool) (dut : Nat → DutOutputs) (tmo fuel : Nat) : SimState :=
  simLoop tE dut tmo fuel 0 initState

/-- `if (cycle >= timeout_cycles) timed_out = true;` -/
def timedOut (tmo : Nat) (s : SimState) : Bool :=
  decide (tmo ≤ s.cycle)

/-- The `Status:` line printed in the final summary. -/
def statusString (b : Bool) : String :=
  if b then "TIMEOUT" else "FINISHED"

/-- `return timed_out ? 2 : 0;` -/
def exitCode (b : Bool) : Nat :=
  if b then 2 else 0

/-- Iteration `n` writes a trace record: the trace sink is open and, after
the toggle and `eval()`, the clock is high, reset is deasserted and the
device asserts `trace_valid`. -/
def qualEdge (tE : Bool) (dut : Nat → DutOutputs) (n : Nat) : Bool :=
  tE && (iterState tE dut (n + 1)).clk && (iterState tE dut (n + 1)).resetn
    && (dut n).trace_valid

/-- Iteration `n` is an active (rising) clock edge observed with reset
deasserted: the clock goes low → high and reset is high afterwards. -/
def activeEdge (tE : Bool) (dut : Nat → DutOutputs) (n : Nat) : Bool :=
  (iterState tE dut (n + 1)).clk && !(iterState tE dut n).clk
    && (iterState tE dut (n + 1)).resetn

/-- Lower-case hex digit character for `d < 16`, as printed by `%x`. -/
def hexChar (d : Nat) : Char :=
  if d < 10 then Char.ofNat (48 + d) else Char.ofNat (87 + d)

/-- A character counting as a hexadecimal digit of `%x` output. -/
def isHexDigitChar (c : Char) : Bool :=
  c.isDigit || ('a' ≤ c && c ≤ 'f')

/-- `fprintf(trace_fd, "%9.9lx\n", v)`: the hex digits of `v`, zero-padded on
the left to at least 9 digits (precision 9), followed by a newline. -/
def printfHex9 (v : Nat) : String :=
  let ds : List Char := ((Nat.digits 16 v).map hexChar).reverse
  String.mk (List.replicate (9 - ds.length) '0' ++ ds ++ ['\n'])

/-- The lines of `testbench.trace` produced by a run. -/
def traceFileLines (s : SimState) : List String :=
  s.traceRecs.map (fun r => printfHex9 r.2)

/-- Modelled from the spec: the width of the device-under-test's trace-data
pin is declared in the Verilated model headers, which are not part of the
sources here; the spec fixes every trace record at exactly 9 hex digits
("one fixed-width hexadecimal line (9 hex digits, newline-terminated)"),
so the pin value is modelled as strictly below `16 ^ 9`. -/
def traceDataBound : Nat := 16 ^ 9

/-! ## Command-line argument loop (`main`, testbench_cli.cc lines 159-190) -/

/-- The characters of `"-h"`. -/
def helpShortChars : List Char := ['-', 'h']

/-- The characters of `"--help"`. -/
def helpLongChars : List Char := ['-', '-', 'h', 'e', 'l', 'p']

/-- The characters of `"--timeout="` (the 10-character key compared by
`strncmp(argv[i], "--timeout=", 10)`). -/
def timeoutKeyChars : List Char := ['-', '-', 't', 'i', 'm', 'e', 'o', 'u', 't', '=']

/-- The whitespace characters `atoi`/`isspace` skips in the C locale. -/
def isSpaceC (c : Char) : Bool :=
  c = ' ' || c = '\t' || c = '\n' || c = '\x0b' || c = '\x0c' || c = '\r'

/-- The value of the longest run of leading decimal digits, accumulated
left to right (how `atoi` consumes digits; stops at the first non-digit). -/
def atoiDigits : List Char → Nat → Nat
  | c :: cs, acc => if c.isDigit then atoiDigits cs (10 * acc + (c.toNat - 48)) else acc
  | [], acc => acc

/-- `atoi`: skip leading whitespace, read an optional sign, then the longest
run of digits; an input with no digits yields 0.  (`int` overflow is
undefined behaviour in the source and is not modelled; the value is exact.) -/
def atoiC (s : List Char) : Int :=
  match s.dropWhile isSpaceC with
  | '-' :: rest => -(atoiDigits rest 0 : Int)
  | '+' :: rest => (atoiDigits rest 0 : Int)
  | cs => (atoiDigits cs 0 : Int)

/-- How the argument loop terminates: print usage and exit 0, exit 1 on an
argument error, or fall through to run the simulation with the collected
ELF path and timeout. -/
inductive ArgResult where
  | help
  | argError
  | run (elf : List Char) (timeout : Int)
deriving DecidableEq

/-- The `for (int i = 1; i < argc; i++)` argument loop, with `elf` the
`elf_file` accumulator (initially `none`) and `tmo` the current
`timeout_cycles` (initially 1000000).  After the loop, a missing ELF path is
an error. -/
def parseArgsLoop : List (List Char) → Option (List Char) → Int → ArgResult
  | [], none, _ => ArgResult.argError
  | [], some e, tmo => ArgResult.run e tmo
  | a :: rest, elf, tmo =>
    if a = helpShortChars ∨ a = helpLongChars then ArgResult.help
    else if timeoutKeyChars.isPrefixOf a then
      let v := atoiC (a.drop 10)
      if v ≤ 0 then ArgResult.argError
      else parseArgsLoop rest elf v
    else if a.head? = some '+' then parseArgsLoop rest elf tmo
    else if a.head? = some '-' then ArgResult.argError
    else
      match elf with
      | some _ => ArgResult.argError
      | none => parseArgsLoop rest (some a) tmo

/-- Exit code decided by argument parsing alone: `some c` means the process
exits with code `c` before any simulation state is created; `none` means it
proceeds to construct the model and simulate. -/
def argExitCode : ArgResult → Option Nat
  | ArgResult.help => some 0
  | ArgResult.argError => some 1
  | ArgResult.run _ _ => none

/-- Follows the claim's words, not the source: the option value "parses as a
positive integer" — a nonempty all-digit string with positive value. -/
def decimalVal (s : List Char) : Nat :=
  s.foldl (fun acc c => 10 * acc + (c.toNat - 48)) 0

/-- Follows the claim's words, not the source: `N` "parses as a positive
integer" iff it is a nonempty string of decimal digits denoting a positive
value. -/
def isPositiveIntNumeral (s : List Char) : Bool :=
  !s.isEmpty && s.all Char.isDigit && decide (0 < decimalVal s)

/-! ## Loader lemmas -/

theorem writeRange_in {src : Nat → Nat} {dst n a : Nat} (mem : Nat → Nat)
    (h1 : dst ≤ a) (h2 : a < dst + n) :
    writeRange src dst n mem a = src (a - dst) := by
  simp [writeRange, h1, h2]

theorem writeRange_out {src : Nat → Nat} {dst n a : Nat} (mem : Nat → Nat)
    (h : a < dst ∨ dst + n ≤ a) :
    writeRange src dst n mem a = mem a := by
  unfold writeRange
  rw [if_neg]
  omega

theorem copyMem_at {file : Nat → Nat} {p : Phdr} (mem : Nat → Nat) {k : Nat}
    (hk : k < p.p_filesz) :
    copyMem file p mem (p.loadAddr + k) = file (p.p_offset + k) := by
  unfold copyMem
  rw [if_pos (by omega : 0 < p.p_filesz)]
  rw [writeRange_in mem (Nat.le_add_right _ _) (by omega)]
  congr 1
  omega

theorem copyMem_frame {file : Nat → Nat} {p : Phdr} (mem : Nat → Nat) {a : Nat}
    (h : a < p.loadAddr ∨ p.loadAddr + p.p_filesz ≤ a) :
    copyMem file p mem a = mem a := by
  unfold copyMem
  by_cases h0 : 0 < p.p_filesz
  · rw [if_pos h0, writeRange_out _ (by omega)]
  · rw [if_neg h0]

theorem segMem_file {file : Nat → Nat} {p : Phdr} (mem : Nat → Nat) {k : Nat}
    (hk : k < p.p_filesz) :
    segMem file p mem (p.loadAddr + k) = file (p.p_offset + k) := by
  unfold segMem
  by_cases h : p.p_filesz < p.p_memsz
  · rw [if_pos h, writeRange_out _ (Or.inl (by omega)), copyMem_at mem hk]
  · rw [if_neg h, copyMem_at mem hk]

theorem segMem_bss {file : Nat → Nat} {p : Phdr} (mem : Nat → Nat) {k : Nat}
    (h1 : p.p_filesz ≤ k) (h2 : k < p.p_memsz) :
    segMem file p mem (p.loadAddr + k) = 0 := by
  unfold segMem
  rw [if_pos (by omega), writeRange_in _ (by omega) (by omega)]

theorem segMem_frame {file : Nat → Nat} {p : Phdr} (mem : Nat → Nat)
    (hfm : p.p_filesz ≤ p.p_memsz) {a : Nat}
    (h : a < p.loadAddr ∨ p.loadAddr + p.p_memsz ≤ a) :
    segMem file p mem a = mem a := by
  unfold segMem
  by_cases hb : p.p_filesz < p.p_memsz
  · rw [if_pos hb, writeRange_out _ (by omega), copyMem_frame _ (by omega)]
  · rw [if_neg hb, copyMem_frame _ (by omega)]

theorem loadSegment_eq_of_load {file mem : Nat → Nat} {p : Phdr} {m' : Nat → Nat}
    (hp : p.p_type = PT_LOAD) (h : loadSegment file mem p = some m') :
    m' = segMem file p mem := by
  unfold loadSegment at h
  rw [if_pos hp] at h
  by_cases hc : MEM_SIZE ≤ p.loadAddr ∨ MEM_SIZE < (p.loadAddr + p.p_memsz) % 2 ^ 32
  · rw [if_pos hc] at h; cases h
  · rw [if_neg hc] at h; exact (Option.some.inj h).symm

theorem loadSegment_other {file mem : Nat → Nat} {p : Phdr}
    (hp : ¬ p.p_type = PT_LOAD) :
    loadSegment file mem p = some mem := by
  unfold loadSegment
  rw [if_neg hp]

theorem loadSegs_spec (file : Nat → Nat) (ps : List Phdr) :
    ∀ mem m : Nat → Nat,
      (∀ p ∈ ps, p.p_type = PT_LOAD → p.p_filesz ≤ p.p_memsz) →
      ps.Pairwise segDisjoint →
      loadSegs file ps mem = some m →
      (∀ p ∈ ps, p.p_type = PT_LOAD →
          (∀ k, k < p.p_filesz → m (p.loadAddr + k) = file (p.p_offset + k)) ∧
          (∀ k, p.p_filesz ≤ k → k < p.p_memsz → m (p.loadAddr + k) = 0)) ∧
      (∀ a, (∀ p ∈ ps, p.p_type = PT_LOAD → ¬ inSeg p a) → m a = mem a) := by
  induction ps with
  | nil =>
    intro mem m _ _ h
    simp only [loadSegs, Option.some.injEq] at h
    subst h
    exact ⟨by simp, fun a _ => rfl⟩
  | cons p ps ih =>
    intro mem m hfm hdisj h
    simp only [loadSegs] at h
    cases hseg : loadSegment file mem p with
    | none => rw [hseg] at h; cases h
    | some mem1 =>
      rw [hseg] at h
      obtain ⟨hpq, hps⟩ := List.pairwise_cons.mp hdisj
      obtain ⟨ihA, ihF⟩ :=
        ih mem1 m (fun q hq => hfm q (List.mem_cons_of_mem _ hq)) hps h
      by_cases hp : p.p_type = PT_LOAD
      · have hm1 : mem1 = segMem file p mem := loadSegment_eq_of_load hp hseg
        subst hm1
        have hfmp : p.p_filesz ≤ p.p_memsz := hfm p (List.mem_cons_self p ps) hp
        constructor
        · intro q hq hqload
          rcases List.mem_cons.mp hq with rfl | hq'
          · constructor
            · intro k hk
              have hin : inSeg q (q.loadAddr + k) :=
                ⟨Nat.le_add_right _ _, by omega⟩
              rw [ihF _ (fun r hr hrload => hpq r hr hqload hrload _ hin)]
              exact segMem_file mem hk
            · intro k hk1 hk2
              have hin : inSeg q (q.loadAddr + k) :=
                ⟨Nat.le_add_right _ _, by omega⟩
              rw [ihF _ (fun r hr hrload => hpq r hr hqload hrload _ hin)]
              exact segMem_bss mem hk1 hk2
          · exact ihA q hq' hqload
        · intro a ha
          have hnotp : ¬ inSeg p a := ha p (List.mem_cons_self p ps) hp
          rw [ihF a (fun q hq' hql => ha q (List.mem_cons_of_mem _ hq') hql)]
          refine segMem_frame mem hfmp ?_
          unfold inSeg at hnotp
          omega
      · have hm1 : mem1 = mem := by
          have hother : loadSegment file mem p = some mem := loadSegment_other hp
          rw [hseg] at hother
          exact Option.some.inj hother
        subst hm1
        constructor
        · intro q hq hqload
          rcases List.mem_cons.mp hq with rfl | hq'
          · exact absurd hqload hp
          · exact ihA q hq' hqload
        · intro a ha
          exact ihF a (fun q hq' hql => ha q (List.mem_cons_of_mem _ hq') hql)

theorem loadSegs_fails (file : Nat → Nat) (ps : List Phdr) :
    ∀ mem : Nat → Nat,
      (∃ p ∈ ps, p.p_type = PT_LOAD ∧ MEM_SIZE ≤ p.loadAddr) →
      loadSegs file ps mem = none := by
  induction ps with
  | nil => intro mem h; simp at h
  | cons p ps ih =>
    intro mem h
    simp only [loadSegs]
    rcases h with ⟨q, hq, hqload, hqla⟩
    rcases List.mem_cons.mp hq with rfl | hq'
    · have : loadSegment file mem q = none := by
        unfold loadSegment
        rw [if_pos hqload, if_pos (Or.inl hqla)]
      rw [this]
    · cases hseg : loadSegment file mem p with
      | none => rfl
      | some mem1 => exact ih mem1 ⟨q, hq', hqload, hqla⟩

instance (p : Phdr) (a : Nat) : Decidable (inSeg p a) := by
  unfold inSeg
  exact inferInstance

/-! ## Concrete loader inputs -/

/-- An all-7 initial memory, making any write outside the zeroed buffer
observable. -/
def memSeven : Nat → Nat := fun _ => 7

/-- A segment whose unbounded end `0x1000 + 0xFFFFFFFF` is far beyond the
buffer but whose wrapped 32-bit end `0xFFF` passes the source's check. -/
def phdrOverflow : Phdr :=
  { p_type := PT_LOAD, p_offset := 0, p_vaddr := 0, p_filesz := 0,
    p_memsz := 4294967295, p_paddr := 4096 }

def imgOverflow : ElfImage :=
  { magicOk := true, eiClass := ELFCLASS32, e_machine := EM_RISCV, e_entry := 0,
    phdrs := [phdrOverflow], fileByte := fun _ => 0 }

/-- A two-byte-file, four-byte-memory loadable segment placed at 0x100. -/
def phdrSmall : Phdr :=
  { p_type := PT_LOAD, p_offset := 0, p_vaddr := 0, p_filesz := 2,
    p_memsz := 4, p_paddr := 256 }

def imgSmall : ElfImage :=
  { magicOk := true, eiClass := ELFCLASS32, e_machine := EM_RISCV, e_entry := 0,
    phdrs := [phdrSmall], fileByte := fun k => k + 10 }

/-- An empty-memory-size loadable segment placed exactly at the buffer end:
it satisfies the spec's `load_address + memory_size ≤ capacity` invariant. -/
def phdrAtEnd : Phdr :=
  { p_type := PT_LOAD, p_offset := 0, p_vaddr := 0, p_filesz := 0,
    p_memsz := 0, p_paddr := 131072 }

def imgAtEnd : ElfImage :=
  { magicOk := true, eiClass := ELFCLASS32, e_machine := EM_RISCV, e_entry := 0,
    phdrs := [phdrAtEnd], fileByte := fun _ => 0 }

/-- A header-only valid image with no segments. -/
def imgPlain : ElfImage :=
  { magicOk := true, eiClass := ELFCLASS32, e_machine := 0, e_entry := 0,
    phdrs := [], fileByte := fun _ => 0 }

/-! ## Loader claims -/

/-- C1: for every valid 32-bit image whose loadable segments all lie within
the buffer capacity (with `file_size ≤ memory_size` and pairwise disjoint
destination ranges), after `load` returns success every byte in
`[load_address, load_address + file_size)` equals the corresponding file
byte, every byte in `[load_address + file_size, load_address + memory_size)`
is zero, and every buffer byte outside all loadable segments is zero. -/
theorem c1_load_correct (img : ElfImage) (mem0 m : Nat → Nat)
    (hmagic : img.magicOk = true) (hclass : img.eiClass = ELFCLASS32)
    (_hwithin : ∀ p ∈ img.phdrs, p.p_type = PT_LOAD →
      p.loadAddr + p.p_memsz ≤ MEM_SIZE)
    (hfm : ∀ p ∈ img.phdrs, p.p_type = PT_LOAD → p.p_filesz ≤ p.p_memsz)
    (hdisj : img.phdrs.Pairwise segDisjoint)
    (hok : ElfLoader.load img mem0 = Except.ok m) :
    (∀ p ∈ img.phdrs, p.p_type = PT_LOAD →
        (∀ k, k < p.p_filesz → m (p.loadAddr + k) = img.fileByte (p.p_offset + k)) ∧
        (∀ k, p.p_filesz ≤ k → k < p.p_memsz → m (p.loadAddr + k) = 0)) ∧
    (∀ a, a < MEM_SIZE →
      (∀ p ∈ img.phdrs, p.p_type = PT_LOAD → ¬ inSeg p a) → m a = 0) := by
  have hok' : loadSegs img.fileByte img.phdrs
      (writeRange (fun _ => 0) 0 MEM_SIZE mem0) = some m := by
    unfold ElfLoader.load at hok
    rw [hmagic, hclass] at hok
    simp only [ne_eq, not_true_eq_false, if_false, if_true] at hok
    cases hsegs : loadSegs img.fileByte img.phdrs
        (writeRange (fun _ => 0) 0 MEM_SIZE mem0) with
    | none => rw [hsegs] at hok; cases hok
    | some mm => rw [hsegs] at hok; cases hok; rfl
  obtain ⟨hA, hF⟩ := loadSegs_spec img.fileByte img.phdrs _ m hfm hdisj hok'
  refine ⟨hA, ?_⟩
  intro a ha hout
  rw [hF a hout]
  rw [writeRange_in mem0 (Nat.zero_le a) (by omega)]

/-- C1 witness: on a concrete one-segment image, the loaded memory holds the
file bytes, zero BSS, and zero outside the segment. -/
theorem c1_load_correct_witness :
    ∃ m, ElfLoader.load imgSmall memSeven = Except.ok m
      ∧ m (phdrSmall.loadAddr + 0) = imgSmall.fileByte (phdrSmall.p_offset + 0)
      ∧ m (phdrSmall.loadAddr + 2) = 0
      ∧ m 0 = 0 := by
  obtain ⟨hA, hF⟩ := c1_load_correct imgSmall memSeven
    (segMem imgSmall.fileByte phdrSmall (writeRange (fun _ => 0) 0 MEM_SIZE memSeven))
    rfl rfl (by decide) (by decide) (by simp [imgSmall]) rfl
  refine ⟨_, rfl, ?_, ?_, ?_⟩
  · exact (hA phdrSmall (by simp [imgSmall]) rfl).1 0 (by decide)
  · exact (hA phdrSmall (by simp [imgSmall]) rfl).2 2 (by decide) (by decide)
  · exact hF 0 (by decide) (by decide)

/-- C2 (refuting theorem): a loadable segment whose unbounded
`load_address + memory_size` exceeds the 128 KiB capacity is nevertheless
accepted, because the source's bounds check adds in wrapping 32-bit
arithmetic; the segment's BSS `memset` then writes past the buffer
(address `MEM_SIZE`, previously 7, becomes 0). -/
theorem c2_overflow_evades_bounds_check :
    MEM_SIZE < phdrOverflow.loadAddr + phdrOverflow.p_memsz
    ∧ ∃ m, ElfLoader.load imgOverflow memSeven = Except.ok m
        ∧ m MEM_SIZE = 0 ∧ memSeven MEM_SIZE = 7 := by
  refine ⟨by decide, ⟨_, rfl, ?_, rfl⟩⟩
  decide

/-- C8: when the magic and 32-bit class checks pass, a non-RISC-V
`e_machine` value changes nothing about the result of `load` (it proceeds
identically to the matching-machine case); it only triggers the warning. -/
theorem c8_machine_warning_only (img : ElfImage) (mem0 : Nat → Nat) (mach : Nat)
    (hmagic : img.magicOk = true) (hclass : img.eiClass = ELFCLASS32) :
    ElfLoader.load { img with e_machine := mach } mem0
      = ElfLoader.load { img with e_machine := EM_RISCV } mem0
    ∧ (loadWarnsMachine { img with e_machine := mach } = true ↔ mach ≠ EM_RISCV) := by
  constructor
  · rfl
  · simp [loadWarnsMachine, hmagic, hclass]

/-- C8 witness at a concrete image and machine value 7. -/
theorem c8_machine_warning_only_witness :
    ElfLoader.load { imgPlain with e_machine := 7 } memSeven
      = ElfLoader.load { imgPlain with e_machine := EM_RISCV } memSeven
    ∧ (loadWarnsMachine { imgPlain with e_machine := 7 } = true ↔ (7 : Nat) ≠ EM_RISCV) :=
  c8_machine_warning_only imgPlain memSeven 7 rfl rfl

/-- C9: any loadable segment with `load_address ≥ MEM_SIZE` makes `load`
fail with the segment-bounds error, regardless of `memory_size` — including
`memory_size = 0`, which satisfies the spec's
`load_address + memory_size ≤ capacity` invariant. -/
theorem c9_high_loadaddr_rejected (img : ElfImage) (mem0 : Nat → Nat) (p : Phdr)
    (hmagic : img.magicOk = true) (hclass : img.eiClass = ELFCLASS32)
    (hmem : p ∈ img.phdrs) (hload : p.p_type = PT_LOAD)
    (hla : MEM_SIZE ≤ p.loadAddr) :
    ElfLoader.load img mem0 = Except.error LoadError.segmentOutOfBounds := by
  unfold ElfLoader.load
  rw [hmagic, hclass]
  simp only [ne_eq, not_true_eq_false, if_false, if_true]
  rw [loadSegs_fails img.fileByte img.phdrs _ ⟨p, hmem, hload, hla⟩]

/-- C9 witness: a zero-size segment at address `MEM_SIZE` — within the
spec's stated invariant — is rejected by the source's strict check. -/
theorem c9_high_loadaddr_rejected_witness :
    ElfLoader.load imgAtEnd memSeven = Except.error LoadError.segmentOutOfBounds
    ∧ phdrAtEnd.loadAddr + phdrAtEnd.p_memsz ≤ MEM_SIZE :=
  ⟨c9_high_loadaddr_rejected imgAtEnd memSeven phdrAtEnd rfl rfl
    (by simp [imgAtEnd]) rfl (by decide), by decide⟩

/-! ## Simulation lemmas -/

theorem iterState_succ (tE : Bool) (dut : Nat → DutOutputs) (n : Nat) :
    iterState tE dut (n + 1) = stepSim tE (dut n) (iterState tE dut n) := rfl

theorem stepSim_clk (tE : Bool) (d : DutOutputs) (s : SimState) :
    (stepSim tE d s).clk = !s.clk := rfl

theorem stepSim_resetn (tE : Bool) (d : DutOutputs) (s : SimState) :
    (stepSim tE d s).resetn = if 200 < s.t then true else s.resetn := rfl

theorem stepSim_t (tE : Bool) (d : DutOutputs) (s : SimState) :
    (stepSim tE d s).t = s.t + 5 := rfl

theorem stepSim_finished (tE : Bool) (d : DutOutputs) (s : SimState) :
    (stepSim tE d s).finished = (s.finished || d.finish) := rfl

theorem stepSim_cycle (tE : Bool) (d : DutOutputs) (s : SimState) :
    (stepSim tE d s).cycle =
      if (stepSim tE d s).clk && (stepSim tE d s).resetn then s.cycle + 1
      else s.cycle := rfl

theorem stepSim_traceRecs (tE : Bool) (d : DutOutputs) (s : SimState) :
    (stepSim tE d s).traceRecs =
      if tE && (stepSim tE d s).clk && (stepSim tE d s).resetn && d.trace_valid
      then s.traceRecs ++ [(s.cycle, d.trace_data)]
      else s.traceRecs := rfl

theorem iter_base (tE : Bool) (dut : Nat → DutOutputs) :
    ∀ n, (iterState tE dut n).t = 5 * n
      ∧ (iterState tE dut n).clk = decide (n % 2 = 1)
      ∧ (iterState tE dut n).resetn = decide (42 ≤ n) := by
  intro n
  induction n with
  | zero => exact ⟨rfl, rfl, rfl⟩
  | succ n ih =>
    obtain ⟨ht, hclk, hrst⟩ := ih
    refine ⟨?_, ?_, ?_⟩
    · rw [iterState_succ, stepSim_t, ht]; ring
    · rw [iterState_succ, stepSim_clk, hclk]
      rcases Nat.mod_two_eq_zero_or_one n with h | h
      · have h' : (n + 1) % 2 = 1 := by omega
        simp [h, h']
      · have h' : (n + 1) % 2 = 0 := by omega
        simp [h, h']
    · rw [iterState_succ, stepSim_resetn, ht, hrst]
      by_cases h : 200 < 5 * n
      · rw [if_pos h]
        have h' : 42 ≤ n + 1 := by omega
        simp [h']
      · rw [if_neg h]
        have h1 : ¬ 42 ≤ n := by omega
        have h2 : ¬ 42 ≤ n + 1 := by omega
        simp [h1, h2]

theorem iter_cycle (tE : Bool) (dut : Nat → DutOutputs) :
    ∀ n, (iterState tE dut n).cycle = (n - 41) / 2 := by
  intro n
  induction n with
  | zero => rfl
  | succ n ih =>
    obtain ⟨ht, hclk, hrst⟩ := iter_base tE dut (n + 1)
    rw [iterState_succ, stepSim_cycle, ← iterState_succ, hclk, hrst, ih]
    by_cases h1 : (n + 1) % 2 = 1 <;> by_cases h2 : 42 ≤ n + 1 <;>
      simp [h1, h2] <;> omega

theorem iter_finished_never (tE : Bool) (dut : Nat → DutOutputs)
    (hnf : ∀ i, (dut i).finish = false) :
    ∀ n, (iterState tE dut n).finished = false := by
  intro n
  induction n with
  | zero => rfl
  | succ n ih =>
    rw [iterState_succ, stepSim_finished, ih, hnf]
    rfl

theorem simLoop_zero (tE : Bool) (dut : Nat → DutOutputs) (tmo i : Nat)
    (s : SimState) : simLoop tE dut tmo 0 i s = s := rfl

theorem simLoop_succ (tE : Bool) (dut : Nat → DutOutputs) (tmo fuel i : Nat)
    (s : SimState) :
    simLoop tE dut tmo (fuel + 1) i s =
      if s.finished = false ∧ s.cycle < tmo then
        simLoop tE dut tmo fuel (i + 1) (stepSim tE (dut i) s)
      else s := rfl

theorem simLoop_exit (tE : Bool) (dut : Nat → DutOutputs) (tmo : Nat)
    (hT : 0 < tmo) (hnf : ∀ i, (dut i).finish = false) :
    ∀ fuel i, i ≤ 2 * tmo + 41 → 2 * tmo + 41 ≤ i + fuel →
      simLoop tE dut tmo fuel i (iterState tE dut i)
        = iterState tE dut (2 * tmo + 41) := by
  intro fuel
  induction fuel with
  | zero =>
    intro i h1 h2
    have hi : i = 2 * tmo + 41 := by omega
    rw [hi, simLoop_zero]
  | succ fuel ih =>
    intro i h1 h2
    rcases Nat.lt_or_ge i (2 * tmo + 41) with hlt | hge
    · have hcond : (iterState tE dut i).finished = false
          ∧ (iterState tE dut i).cycle < tmo := by
        refine ⟨iter_finished_never tE dut hnf i, ?_⟩
        rw [iter_cycle]
        omega
      rw [simLoop_succ, if_pos hcond, ← iterState_succ]
      exact ih (i + 1) (by omega) (by omega)
    · have hi : i = 2 * tmo + 41 := by omega
      subst hi
      rw [simLoop_succ, if_neg]
      rintro ⟨-, hcy⟩
      rw [iter_cycle] at hcy
      omega

theorem simLoop_reaches (tE : Bool) (dut : Nat → DutOutputs) (tmo : Nat) :
    ∀ fuel i, ∃ k, k ≤ fuel ∧
      simLoop tE dut tmo fuel i (iterState tE dut i) = iterState tE dut (i + k) := by
  intro fuel
  induction fuel with
  | zero => exact fun i => ⟨0, Nat.le_refl 0, rfl⟩
  | succ fuel ih =>
    intro i
    by_cases h : (iterState tE dut i).finished = false
        ∧ (iterState tE dut i).cycle < tmo
    · obtain ⟨k, hk, heq⟩ := ih (i + 1)
      refine ⟨k + 1, by omega, ?_⟩
      rw [simLoop_succ, if_pos h, ← iterState_succ, heq]
      congr 1
      omega
    · refine ⟨0, by omega, ?_⟩
      rw [simLoop_succ, if_neg h]
      rfl

/-! ## Simulation claims -/

/-- C3: with a positive cycle budget `T` and a device-under-test that never
signals finish, any sufficiently fuelled run exits the loop with
`cycle` exactly `T`, the timeout flag set, status `TIMEOUT`, and process
exit code 2. -/
theorem c3_timeout_exact (tE : Bool) (dut : Nat → DutOutputs) (T fuel : Nat)
    (hT : 0 < T) (hnf : ∀ i, (dut i).finish = false)
    (hfuel : 2 * T + 41 ≤ fuel) :
    (runSim tE dut T fuel).cycle = T
    ∧ timedOut T (runSim tE dut T fuel) = true
    ∧ statusString (timedOut T (runSim tE dut T fuel)) = "TIMEOUT"
    ∧ exitCode (timedOut T (runSim tE dut T fuel)) = 2 := by
  have hrun : runSim tE dut T fuel = iterState tE dut (2 * T + 41) := by
    have h0 : initState = iterState tE dut 0 := rfl
    unfold runSim
    rw [h0]
    exact simLoop_exit tE dut T hT hnf fuel 0 (by omega) (by omega)
  have hcyc : (runSim tE dut T fuel).cycle = T := by
    rw [hrun, iter_cycle]
    omega
  have htmo : timedOut T (runSim tE dut T fuel) = true := by
    unfold timedOut
    rw [hcyc]
    simp
  refine ⟨hcyc, htmo, ?_, ?_⟩
  · rw [htmo]; rfl
  · rw [htmo]; rfl

/-- A device-under-test that never raises any output. -/
def dutQuiet : Nat → DutOutputs := fun _ => ⟨false, false, 0⟩

/-- C3 witness: budget 1, fuel 43 (= 2·1+41). -/
theorem c3_timeout_exact_witness :
    (runSim false dutQuiet 1 43).cycle = 1
    ∧ timedOut 1 (runSim false dutQuiet 1 43) = true
    ∧ statusString (timedOut 1 (runSim false dutQuiet 1 43)) = "TIMEOUT"
    ∧ exitCode (timedOut 1 (runSim false dutQuiet 1 43)) = 2 :=
  c3_timeout_exact false dutQuiet 1 43 (by decide) (fun _ => rfl) (by decide)

/-- C4 (amended): the terminal status is exactly one of `TIMEOUT` and
`FINISHED`; it is `TIMEOUT` iff the final cycle count reached the budget —
even when the finish signal arrived on the very iteration that exhausted the
budget — and it is `FINISHED` with exit code 0 iff the loop stopped with the
cycle count still below the budget. -/
theorem c4_status_amended (tE : Bool) (dut : Nat → DutOutputs) (T fuel : Nat) :
    (statusString (timedOut T (runSim tE dut T fuel)) = "TIMEOUT"
      ∨ statusString (timedOut T (runSim tE dut T fuel)) = "FINISHED")
    ∧ ¬(statusString (timedOut T (runSim tE dut T fuel)) = "TIMEOUT"
        ∧ statusString (timedOut T (runSim tE dut T fuel)) = "FINISHED")
    ∧ (statusString (timedOut T (runSim tE dut T fuel)) = "TIMEOUT"
        ↔ T ≤ (runSim tE dut T fuel).cycle)
    ∧ ((statusString (timedOut T (runSim tE dut T fuel)) = "FINISHED"
        ∧ exitCode (timedOut T (runSim tE dut T fuel)) = 0)
        ↔ (runSim tE dut T fuel).cycle < T) := by
  by_cases h : T ≤ (runSim tE dut T fuel).cycle
  · have hb : timedOut T (runSim tE dut T fuel) = true := by
      unfold timedOut
      exact decide_eq_true h
    rw [hb]
    refine ⟨Or.inl rfl, ?_, ⟨fun _ => h, fun _ => rfl⟩, ?_⟩
    · rintro ⟨-, h2⟩
      exact absurd h2 (by decide)
    · constructor
      · rintro ⟨h1, -⟩
        exact absurd h1 (by decide)
      · intro hlt
        omega
  · have hb : timedOut T (runSim tE dut T fuel) = false := by
      unfold timedOut
      exact decide_eq_false h
    rw [hb]
    refine ⟨Or.inr rfl, ?_, ?_, ?_⟩
    · rintro ⟨h1, -⟩
      exact absurd h1 (by decide)
    · constructor
      · intro h1
        exact absurd h1 (by decide)
      · intro hT'
        exact absurd hT' h
    · exact ⟨fun _ => by omega, fun _ => ⟨rfl, rfl⟩⟩

/-- A device-under-test that raises `$finish` exactly on iteration 42 — the
iteration whose rising edge brings the cycle count to a budget of 1. -/
def dutFinishAtBudget : Nat → DutOutputs := fun i => ⟨decide (i = 42), false, 0⟩

/-- C4 counterexample: in this run the finish signal does arrive
(`finished = true`) on the same iteration that exhausts the budget, yet the
reported status is `TIMEOUT` and the exit code is 2, not `FINISHED`/0 as the
claim states for every run in which the finish signal arrives. -/
theorem c4_tie_counterexample :
    (runSim false dutFinishAtBudget 1 50).finished = true
    ∧ (runSim false dutFinishAtBudget 1 50).cycle = 1
    ∧ statusString (timedOut 1 (runSim false dutFinishAtBudget 1 50)) = "TIMEOUT"
    ∧ exitCode (timedOut 1 (runSim false dutFinishAtBudget 1 50)) = 2 := by
  decide

/-- C7: logical time advances by exactly 5 units per executed half-cycle
step, and the cycle counter equals the number of active edges — iterations
on which the clock rises with reset deasserted — among the executed steps,
so it increments exactly once per such edge and never otherwise; every run's
exit state is one of these iteration states. -/
theorem c7_clock_cycle_invariants (tE : Bool) (dut : Nat → DutOutputs) :
    (∀ n, (iterState tE dut n).t = 5 * n)
    ∧ (∀ n, (iterState tE dut (n + 1)).t = (iterState tE dut n).t + 5)
    ∧ (∀ n, (iterState tE dut n).cycle
        = (List.range n).countP (activeEdge tE dut))
    ∧ (∀ tmo fuel, ∃ n, n ≤ fuel ∧ runSim tE dut tmo fuel = iterState tE dut n) := by
  have hcount : ∀ n, (iterState tE dut n).cycle
      = (List.range n).countP (activeEdge tE dut) := by
    intro n
    induction n with
    | zero => rfl
    | succ n ih =>
      rw [List.range_succ, List.countP_append, ← ih, List.countP_cons]
      have hinv : (iterState tE dut n).clk = !(iterState tE dut (n + 1)).clk := by
        rw [iterState_succ, stepSim_clk, Bool.not_not]
      have hcyc : (iterState tE dut (n + 1)).cycle =
          if (iterState tE dut (n + 1)).clk && (iterState tE dut (n + 1)).resetn
          then (iterState tE dut n).cycle + 1 else (iterState tE dut n).cycle := rfl
      have hae : activeEdge tE dut n =
          ((iterState tE dut (n + 1)).clk && (iterState tE dut (n + 1)).resetn) := by
        unfold activeEdge
        rw [hinv, Bool.not_not]
        cases (iterState tE dut (n + 1)).clk <;> simp
      rw [hcyc, hae]
      cases hc : ((iterState tE dut (n + 1)).clk && (iterState tE dut (n + 1)).resetn) <;>
        simp
  refine ⟨fun n => (iter_base tE dut n).1, fun n => ?_, hcount, ?_⟩
  · rw [iterState_succ, stepSim_t]
  · intro tmo fuel
    obtain ⟨k, hk, heq⟩ := simLoop_reaches tE dut tmo fuel 0
    refine ⟨k, hk, ?_⟩
    have h0 : runSim tE dut tmo fuel = iterState tE dut (0 + k) := heq
    simpa using h0

/-! ## Trace-record lemmas -/

theorem iter_traceRecs_succ (tE : Bool) (dut : Nat → DutOutputs) (n : Nat) :
    (iterState tE dut (n + 1)).traceRecs =
      if qualEdge tE dut n then
        (iterState tE dut n).traceRecs
          ++ [((iterState tE dut n).cycle, (dut n).trace_data)]
      else (iterState tE dut n).traceRecs := rfl

theorem iter_cycle_le_succ (tE : Bool) (dut : Nat → DutOutputs) (n : Nat) :
    (iterState tE dut n).cycle ≤ (iterState tE dut (n + 1)).cycle := by
  rw [iterState_succ, stepSim_cycle]
  split <;> omega

theorem qualEdge_cycle (tE : Bool) (dut : Nat → DutOutputs) (n : Nat)
    (hq : qualEdge tE dut n = true) :
    (iterState tE dut (n + 1)).cycle = (iterState tE dut n).cycle + 1 := by
  unfold qualEdge at hq
  simp only [Bool.and_eq_true] at hq
  obtain ⟨⟨⟨-, hc⟩, hr⟩, -⟩ := hq
  rw [iterState_succ, stepSim_cycle, ← iterState_succ,
    if_pos (by simp [hc, hr] : ((iterState tE dut (n + 1)).clk
      && (iterState tE dut (n + 1)).resetn) = true)]

theorem iter_trace_inv (tE : Bool) (dut : Nat → DutOutputs) :
    ∀ n, (∀ r ∈ (iterState tE dut n).traceRecs,
            r.1 < (iterState tE dut n).cycle)
      ∧ (iterState tE dut n).traceRecs.Pairwise (fun a b => a.1 < b.1) := by
  intro n
  induction n with
  | zero =>
    refine ⟨?_, ?_⟩ <;> simp [iterState, initState]
  | succ n ih =>
    obtain ⟨ih1, ih2⟩ := ih
    rw [iter_traceRecs_succ]
    by_cases hq : qualEdge tE dut n = true
    · have hc := qualEdge_cycle tE dut n hq
      rw [if_pos hq]
      constructor
      · intro r hr
        rcases List.mem_append.mp hr with h | h
        · have := ih1 r h
          omega
        · rw [List.mem_singleton.mp h]
          omega
      · rw [List.pairwise_append]
        refine ⟨ih2, List.pairwise_singleton _ _, ?_⟩
        intro a ha b hb
        rw [List.mem_singleton.mp hb]
        exact ih1 a ha
    · rw [if_neg hq]
      have hle := iter_cycle_le_succ tE dut n
      refine ⟨?_, ih2⟩
      intro r hr
      have := ih1 r hr
      omega

theorem iter_trace_bound (tE : Bool) (dut : Nat → DutOutputs)
    (hw : ∀ i, (dut i).trace_data < traceDataBound) :
    ∀ n, ∀ r ∈ (iterState tE dut n).traceRecs, r.2 < traceDataBound := by
  intro n
  induction n with
  | zero => simp [iterState, initState]
  | succ n ih =>
    rw [iter_traceRecs_succ]
    by_cases hq : qualEdge tE dut n = true
    · rw [if_pos hq]
      intro r hr
      rcases List.mem_append.mp hr with h | h
      · exact ih r h
      · rw [List.mem_singleton.mp h]
        exact hw n
    · rw [if_neg hq]
      exact ih

theorem iter_trace_length (tE : Bool) (dut : Nat → DutOutputs) :
    ∀ n, (iterState tE dut n).traceRecs.length
      = (List.range n).countP (qualEdge tE dut) := by
  intro n
  induction n with
  | zero => rfl
  | succ n ih =>
    rw [List.range_succ, List.countP_append, ← ih, List.countP_cons,
      iter_traceRecs_succ]
    cases hq : qualEdge tE dut n <;> simp [hq]

theorem digits16_le_nine {v : Nat} (hv : v < 16 ^ 9) :
    (Nat.digits 16 v).length ≤ 9 := by
  by_cases h0 : v = 0
  · subst h0
    simp
  · by_contra h
    push_neg at h
    have hle := Nat.base_pow_length_digits_le 16 v (by norm_num) h0
    have hpow : (16 : Nat) ^ 10 ≤ 16 ^ (Nat.digits 16 v).length :=
      Nat.pow_le_pow_right (by norm_num) (by omega)
    have h10 : (16 : Nat) ^ 10 ≤ 16 * v := le_trans hpow hle
    have h9 : (16 : Nat) ^ 10 = 16 * 16 ^ 9 := by ring
    omega

theorem hexChar_isHexDigitChar : ∀ d, d < 16 → isHexDigitChar (hexChar d) = true := by
  decide

theorem printfHex9_spec {v : Nat} (hv : v < traceDataBound) :
    (printfHex9 v).length = 10
    ∧ (printfHex9 v).data.getLast? = some '\n'
    ∧ ∀ c ∈ (printfHex9 v).data.take 9, isHexDigitChar c = true := by
  set ds : List Char := ((Nat.digits 16 v).map hexChar).reverse with hds
  have hlen : ds.length ≤ 9 := by
    rw [hds, List.length_reverse, List.length_map]
    exact digits16_le_nine hv
  have hpf : printfHex9 v
      = String.mk (List.replicate (9 - ds.length) '0' ++ ds ++ ['\n']) := rfl
  rw [hpf]
  refine ⟨?_, ?_, ?_⟩
  · show (List.replicate (9 - ds.length) '0' ++ ds ++ ['\n']).length = 10
    rw [List.length_append, List.length_append, List.length_replicate]
    simp only [List.length_singleton]
    omega
  · show (List.replicate (9 - ds.length) '0' ++ ds ++ ['\n']).getLast? = some '\n'
    exact List.getLast?_concat _
  · show ∀ c ∈ (List.replicate (9 - ds.length) '0' ++ ds ++ ['\n']).take 9,
      isHexDigitChar c = true
    have htake : (List.replicate (9 - ds.length) '0' ++ ds ++ ['\n']).take 9
        = List.replicate (9 - ds.length) '0' ++ ds := by
      refine List.take_left' ?_
      rw [List.length_append, List.length_replicate]
      omega
    rw [htake]
    intro c hc
    rcases List.mem_append.mp hc with h | h
    · rw [(List.mem_replicate.mp h).2]
      decide
    · rw [hds, List.mem_reverse] at h
      obtain ⟨d, hd, hcd⟩ := List.mem_map.mp h
      rw [← hcd]
      exact hexChar_isHexDigitChar d (Nat.digits_lt_base (by norm_num) hd)

/-- C5: in a run with tracing enabled and every trace-data pin value within
the pin's range, the trace records carry strictly increasing cycle counts,
there is exactly one record per qualifying active edge among the executed
iterations, and each emitted line is exactly 9 hexadecimal digits followed
by a newline. -/
theorem c5_trace_records (tE : Bool) (dut : Nat → DutOutputs) (T fuel : Nat)
    (_hE : tE = true) (hw : ∀ i, (dut i).trace_data < traceDataBound) :
    (runSim tE dut T fuel).traceRecs.Pairwise (fun a b => a.1 < b.1)
    ∧ (∃ n, n ≤ fuel ∧ runSim tE dut T fuel = iterState tE dut n
        ∧ (runSim tE dut T fuel).traceRecs.length
          = (List.range n).countP (qualEdge tE dut))
    ∧ (∀ l ∈ traceFileLines (runSim tE dut T fuel),
        l.length = 10 ∧ l.data.getLast? = some '\n'
          ∧ ∀ c ∈ l.data.take 9, isHexDigitChar c = true) := by
  obtain ⟨k, hk, heq⟩ := simLoop_reaches tE dut T fuel 0
  have hrun : runSim tE dut T fuel = iterState tE dut k := by
    have h0 : runSim tE dut T fuel = iterState tE dut (0 + k) := heq
    simpa using h0
  refine ⟨?_, ⟨k, hk, hrun, ?_⟩, ?_⟩
  · rw [hrun]
    exact (iter_trace_inv tE dut k).2
  · rw [hrun, iter_trace_length]
  · intro l hl
    rw [hrun] at hl
    unfold traceFileLines at hl
    obtain ⟨r, hr, hrl⟩ := List.mem_map.mp hl
    rw [← hrl]
    exact printfHex9_spec (iter_trace_bound tE dut hw k r hr)

/-- A device-under-test asserting `trace_valid` every third iteration with a
fixed in-range trace value. -/
def dutTrace : Nat → DutOutputs := fun i => ⟨false, decide (i % 3 = 0), 123456789⟩

/-- C5 witness at a concrete traced run. -/
theorem c5_trace_records_witness :
    (runSim true dutTrace 2 50).traceRecs.Pairwise (fun a b => a.1 < b.1)
    ∧ (∃ n, n ≤ 50 ∧ runSim true dutTrace 2 50 = iterState true dutTrace n
        ∧ (runSim true dutTrace 2 50).traceRecs.length
          = (List.range n).countP (qualEdge true dutTrace))
    ∧ (∀ l ∈ traceFileLines (runSim true dutTrace 2 50),
        l.length = 10 ∧ l.data.getLast? = some '\n'
          ∧ ∀ c ∈ l.data.take 9, isHexDigitChar c = true) :=
  c5_trace_records true dutTrace 2 50 rfl
    (fun i => by
      show (123456789 : Nat) < traceDataBound
      decide)

/-! ## Argument-parsing claims -/

/-- C10: any argument beginning with `'+'` is skipped by the argument loop:
parsing continues on the remaining arguments with the ELF-path accumulator
and timeout unchanged — so a `'+'` argument is never an argument error by
itself and never becomes the positional image path, whether or not it is
one of the three documented plus-flags. -/
theorem c10_plusarg_skipped (cs : List Char) (rest : List (List Char))
    (elf : Option (List Char)) (tmo : Int) :
    parseArgsLoop (('+' :: cs) :: rest) elf tmo = parseArgsLoop rest elf tmo := by
  have h1 : ('+' :: cs) ≠ helpShortChars := by
    unfold helpShortChars
    intro h
    injection h with ha _
    exact absurd ha (by decide)
  have h2 : ('+' :: cs) ≠ helpLongChars := by
    unfold helpLongChars
    intro h
    injection h with ha _
    exact absurd ha (by decide)
  have h3 : timeoutKeyChars.isPrefixOf ('+' :: cs) = false := by
    unfold timeoutKeyChars
    rfl
  simp only [parseArgsLoop]
  rw [if_neg (fun h => h.elim h1 h2)]
  rw [if_neg (fun h => by rw [h3] at h; cases h)]
  simp

/-- C6 (amended): `--timeout=N` updates the timeout to `atoi(N)` when that
value is positive and is a fatal argument error (exit code 1, before any
simulation state is created) when `atoi(N) ≤ 0`.  `atoi` accepts an
optional-sign longest-leading-digit-run prefix, so a non-numeral such as
`5x` is accepted as 5. -/
theorem c6_timeout_amended (n : List Char) (rest : List (List Char))
    (elf : Option (List Char)) (tmo : Int) :
    parseArgsLoop ((timeoutKeyChars ++ n) :: rest) elf tmo
      = (if atoiC n ≤ 0 then ArgResult.argError
         else parseArgsLoop rest elf (atoiC n))
    ∧ (atoiC n ≤ 0 →
        argExitCode (parseArgsLoop ((timeoutKeyChars ++ n) :: rest) elf tmo)
          = some 1) := by
  have h1 : (timeoutKeyChars ++ n) ≠ helpShortChars := by
    unfold timeoutKeyChars helpShortChars
    intro h
    injection h with _ hb
    injection hb with hb _
    exact absurd hb (by decide)
  have h2 : (timeoutKeyChars ++ n) ≠ helpLongChars := by
    unfold timeoutKeyChars helpLongChars
    intro h
    injection h with _ hb
    injection hb with _ hb
    injection hb with hb _
    exact absurd hb (by decide)
  have h3 : timeoutKeyChars.isPrefixOf (timeoutKeyChars ++ n) = true := by
    simp [timeoutKeyChars]
  have h4 : (timeoutKeyChars ++ n).drop 10 = n := by
    refine List.drop_left' ?_
    rfl
  have hmain : parseArgsLoop ((timeoutKeyChars ++ n) :: rest) elf tmo
      = (if atoiC n ≤ 0 then ArgResult.argError
         else parseArgsLoop rest elf (atoiC n)) := by
    simp only [parseArgsLoop]
    rw [if_neg (fun h => h.elim h1 h2), if_pos h3, h4]
  refine ⟨hmain, ?_⟩
  intro hle
  rw [hmain, if_pos hle]
  rfl

/-- C6 witness: `--timeout=0` is rejected with exit code 1 before any
simulation state is created. -/
theorem c6_timeout_amended_witness :
    argExitCode (parseArgsLoop ((timeoutKeyChars ++ ['0']) :: [['p']]) none 1000000)
      = some 1 :=
  (c6_timeout_amended ['0'] [['p']] none 1000000).2 (by decide)

/-- C6 counterexample: `--timeout=5x` is accepted — the run proceeds with
timeout 5 — although `5x` does not parse as a positive integer numeral. -/
theorem c6_atoi_counterexample :
    parseArgsLoop [['-', '-', 't', 'i', 'm', 'e', 'o', 'u', 't', '=', '5', 'x'], ['p']]
        none 1000000 = ArgResult.run ['p'] 5
    ∧ isPositiveIntNumeral ['5', 'x'] = false := by
  refine ⟨?_, rfl⟩
  rfl
